import Mathlib

/-!
Shallow embedding of `src/frscraper.py` (sij-ai/fedreg-scraper).

The script is a linear batch job: for each configured agency it pages
through the Federal Register listing, checks MinIO for an existing PDF
artifact, downloads/uploads missing PDFs, and maintains an abstracts
index (a JSON object keyed by document number) that is loaded at start
and saved once at the end.

The embedding models:
  * a document record as delivered by one page of the catalog API
    (`Doc`), with optional fields exactly where the Python code uses
    `result.get(...)` with a default;
  * the storage-path computation of lines 180-182 (`truncatedTitle`,
    `pdfFilename`, `pdfObjectPath`);
  * the abstracts index as an insertion-ordered association list
    (Python `dict`), with `lookupKey`/`setKey` mirroring `d.get`/`d[k]=v`
    and `updatePairs` mirroring `dict.update`;
  * the per-document body of the scraping loop (`processDoc`,
    lines 168-246), the per-page loop (`processDocs`), the pagination
    loop (`processPages`, lines 150-254), the agency loop
    (`runAgencies`) and the whole job after agency resolution
    (`runJob`, ending with the unconditional save of the index).

External effects are threaded explicitly: the MinIO bucket is the list
of object paths already stored (`St.store`), `stat_object` raising an
exception is an oracle `statRaises : String → Bool` (instantiated in
the loop with truthful behaviour: raise exactly when the path is not
stored), and the outcome of `requests.get(pdf_url)` is an oracle
`dl : String → Bool` (`true` = HTTP 200).
-/

/-- One record of the results array of a page: the `document_number`
field is read by required subscript, the rest with `result.get`,
hence optional. -/
structure Doc where
  document_number : String
  title : Option String
  abstract : Option String
  publication_date : Option String
  pdf_url : Option String
deriving DecidableEq, Repr

/-- Python line 175: `if not pdf_url` — true when the field is missing
(`None`) or the empty string. -/
def noPdfUrl (d : Doc) : Bool :=
  match d.pdf_url with
  | none => true
  | some u => u == ""

/-- Python line 173: `title = result.get('title', 'Untitled')`. -/
def effTitle (d : Doc) : String :=
  d.title.getD "Untitled"

/-- Python line 180:
`truncated_title = title[:30] + "..." if len(title) > 30 else title`. -/
def truncatedTitle (title : String) : String :=
  if title.length > 30 then String.mk (title.data.take 30) ++ "..." else title

/-- Character map of Python `.replace('/', '_')`. -/
def slashToUnderscore (c : Char) : Char :=
  if c = '/' then '_' else c

/-- Python `s.replace('/', '_')`: every `/` becomes `_`. -/
def sanitize (s : String) : String :=
  String.mk (s.data.map slashToUnderscore)

/-- Python line 181:
`pdf_filename = f"{document_number} - {truncated_title}.pdf".replace('/', '_')`. -/
def pdfFilename (document_number title : String) : String :=
  sanitize (document_number ++ " - " ++ truncatedTitle title ++ ".pdf")

/-- Python line 182:
`pdf_object_path = f"{parent_folder}/{short_name}/{pdf_filename}"`. -/
def pdfObjectPath (parent_folder short_name document_number title : String) : String :=
  parent_folder ++ "/" ++ short_name ++ "/" ++ pdfFilename document_number title

/-- The storage path of a document record (lines 172-182 combined). -/
def docPath (parent_folder short_name : String) (d : Doc) : String :=
  pdfObjectPath parent_folder short_name d.document_number (effTitle d)

/-- A Python `dict` with string keys, as an insertion-ordered
association list. An index entry maps field names to string values. -/
abbrev Entry := List (String × String)

/-- The abstracts index: `document_number ↦ entry`, i.e. the in-memory
form of `abstracts.json`. -/
abbrev Index := List (String × Entry)

/-- Python `d.get(k)`: first binding of `k`, if any. -/
def lookupKey {α : Type} (l : List (String × α)) (k : String) : Option α :=
  (l.find? (fun p => p.1 == k)).map (fun p => p.2)

/-- Python `d[k] = v`: overwrite in place if the key exists, otherwise
append (insertion order preserved). -/
def setKey {α : Type} (l : List (String × α)) (k : String) (v : α) : List (String × α) :=
  if l.any (fun p => p.1 == k) then
    l.map (fun p => if p.1 == k then (k, v) else p)
  else
    l ++ [(k, v)]

/-- Python `d.update(d2)`: set every binding of `d2` in order. -/
def updatePairs (e : Entry) (ps : List (String × String)) : Entry :=
  ps.foldl (fun acc p => setKey acc p.1 p.2) e

/-- The dict literal of lines 239-245, with the `.get` defaults of
lines 173, 236, 237 applied. -/
def freshPairs (d : Doc) (agency_name path : String) : List (String × String) :=
  [("abstract", d.abstract.getD "No abstract available."),
   ("title", effTitle d),
   ("publication_date", d.publication_date.getD "Unknown"),
   ("agency_name", agency_name),
   ("pdf_path", path)]

/-- Lines 236-246: fetch the existing entry (empty dict when absent),
`update` it with the fresh values, and store it back under
`document_number`. -/
def updateAbstracts (idx : Index) (d : Doc) (agency_name path : String) : Index :=
  let old := (lookupKey idx d.document_number).getD []
  setKey idx d.document_number (updatePairs old (freshPairs d agency_name path))

/-- The mutable state threaded through the loop: the set of object
paths present in the bucket, the in-memory abstracts index, the paths
for which a PDF download request was issued (`requests.get(pdf_url)`,
line 207), the paths uploaded with `put_object` (line 216), and the
`documents_skipped` counter (lines 192-193). -/
structure St where
  store : List String
  index : Index
  attempts : List String
  uploads : List String
  skipped : Nat
deriving DecidableEq, Repr

/-- Loop body for one `result` (lines 168-246).

Returns the new state and the `skip_to_next_agency` flag. Control flow
mirrors the source exactly: a falsy `pdf_url` skips the document
(line 177); `stat_object` succeeding means the artifact exists, which
bumps the skipped counter and either breaks pagination (no `--all`) or
continues with the next result — in both cases `continue`/`break` fire
before line 235, so the abstracts index is NOT touched; any exception
from `stat_object` leads to a download attempt, and only a successful
download reaches the upload (line 216) and the index update
(lines 236-246). -/
def processDoc (allFlag : Bool) (statRaises : String → Bool) (dl : String → Bool)
    (parent_folder short_name agency_name : String) (st : St) (d : Doc) : St × Bool :=
  if noPdfUrl d then
    (st, false)
  else
    let path := docPath parent_folder short_name d
    if statRaises path then
      let st1 : St := { st with attempts := st.attempts ++ [path] }
      if dl (d.pdf_url.getD "") then
        ({ st1 with
            store := st1.store ++ [path],
            uploads := st1.uploads ++ [path],
            index := updateAbstracts st1.index d agency_name path }, false)
      else
        (st1, false)
    else
      let st1 : St := { st with skipped := st.skipped + 1 }
      if allFlag then (st1, false) else (st1, true)

/-- The for-loop over the results array of one page. `stat_object` is given
its truthful behaviour against the current bucket contents: it raises
exactly when the object is absent. Returns the state and the
`skip_to_next_agency` flag. -/
def processDocs (allFlag : Bool) (dl : String → Bool)
    (parent_folder short_name agency_name : String) (st : St) (docs : List Doc) : St × Bool :=
  match docs with
  | [] => (st, false)
  | d :: rest =>
    let r := processDoc allFlag (fun p => !(st.store.contains p)) dl
      parent_folder short_name agency_name st d
    if r.2 then (r.1, true) else
      processDocs allFlag dl parent_folder short_name agency_name r.1 rest

/-- One page response: `none` models a non-200 status (line 155),
`some docs` a successful page with its `results` array. -/
abbrev Page := Option (List Doc)

/-- The `while next_page_url` loop (lines 150-254): the page list is
the chain of page responses; a failed page breaks out (line 157), and
`skip_to_next_agency` breaks out after the page (lines 251-252). -/
def processPages (allFlag : Bool) (dl : String → Bool)
    (parent_folder short_name agency_name : String) (st : St) (pages : List Page) : St :=
  match pages with
  | [] => st
  | none :: _ => st
  | some docs :: rest =>
    let r := processDocs allFlag dl parent_folder short_name agency_name st docs
    if r.2 then r.1 else
      processPages allFlag dl parent_folder short_name agency_name r.1 rest

/-- A matched agency: its display name, the short-name-or-name used in
the object path (line 135), and its chain of page responses. -/
structure Agency where
  short_name : String
  name : String
  pages : List Page

/-- Lines 138-254 for one matched agency. -/
def processAgency (allFlag : Bool) (dl : String → Bool) (parent_folder : String)
    (st : St) (ag : Agency) : St :=
  processPages allFlag dl parent_folder ag.short_name ag.name st ag.pages

/-- The `for agency_keyword in agencies_to_scrape` loop (line 120),
over the already-matched agencies. -/
def runAgencies (allFlag : Bool) (dl : String → Bool) (parent_folder : String)
    (st : St) (ags : List Agency) : St :=
  match ags with
  | [] => st
  | ag :: rest => runAgencies allFlag dl parent_folder (processAgency allFlag dl parent_folder st ag) rest

/-- Result of one run of `main`: the final loop state and the index
persisted by `save_abstracts_to_minio` (line 265), which is reached
unconditionally after the agency loop. -/
structure JobResult where
  finalState : St
  savedIndex : Option Index
deriving DecidableEq, Repr

/-- Initial state of a run: the bucket contents and the index loaded by
`load_existing_abstracts` (empty when the object is absent); the
statistics start at zero (lines 114-117). -/
def initSt (store0 : List String) (idx0 : Index) : St :=
  { store := store0, index := idx0, attempts := [], uploads := [], skipped := 0 }

/-- One run of `main` after config load and agency resolution. -/
def runJob (allFlag : Bool) (dl : String → Bool) (parent_folder : String)
    (idx0 : Index) (store0 : List String) (ags : List Agency) : JobResult :=
  let st := runAgencies allFlag dl parent_folder (initSt store0 idx0) ags
  { finalState := st, savedIndex := some st.index }

/-- The first document, among the reachable pages of an agency, that has a
usable `pdf_url`: the walk stops at a failed page, and within a page
takes the first result with a truthy `pdf_url`. -/
def firstPdfDoc (pages : List Page) : Option Doc :=
  match pages with
  | [] => none
  | none :: _ => none
  | some docs :: rest =>
    match docs.find? (fun d => !(noPdfUrl d)) with
    | some d => some d
    | none => firstPdfDoc rest

/-- Count of `/` characters in a string. -/
def countSlash (s : String) : Nat :=
  s.data.count '/'

/-- The sync loop only ever adds objects to the bucket and only ever
adds or refreshes index keys: this relation holds between every state
and any later state of the same run. -/
def StMono (st st' : St) : Prop :=
  (∀ p, st.store.contains p = true → st'.store.contains p = true) ∧
  (∀ k, (lookupKey st.index k).isSome = true → (lookupKey st'.index k).isSome = true) ∧
  st.index.length ≤ st'.index.length

/-- Agreement of two states on everything but the skipped-statistics
counter. -/
def sameCore (a b : St) : Prop :=
  a.store = b.store ∧ a.index = b.index ∧ a.attempts = b.attempts ∧ a.uploads = b.uploads

/-- Concrete document with every field present (example data for
closed instances). -/
def docA : Doc :=
  { document_number := "2024-0001", title := some "Energy Conservation Standards",
    abstract := some "A final rule.", publication_date := some "2024-05-01",
    pdf_url := some "https://fr.example/a.pdf" }

/-- Same identity (document number and title) as `docA` but different
abstract and pdf url. -/
def docA2 : Doc :=
  { document_number := "2024-0001", title := some "Energy Conservation Standards",
    abstract := some "Corrected abstract.", publication_date := some "2024-05-02",
    pdf_url := some "https://fr.example/a-v2.pdf" }

/-- Concrete document with no optional field present except its pdf
url. -/
def docB : Doc :=
  { document_number := "2024-0002", title := none, abstract := none,
    publication_date := none, pdf_url := some "https://fr.example/b.pdf" }

/-- Concrete document whose `pdf_url` key is absent. -/
def docNoUrl : Doc :=
  { document_number := "2024-0003", title := some "Notice without a file",
    abstract := some "x", publication_date := some "2024-05-02", pdf_url := none }

/-- Concrete document whose `pdf_url` is the empty string (also falsy
in Python). -/
def docEmptyUrl : Doc :=
  { document_number := "2024-0004", title := some "Empty url", abstract := none,
    publication_date := none, pdf_url := some "" }

/-- Concrete agency with a single two-document page. -/
def agFTC : Agency :=
  ⟨"FTC", "Federal Trade Commission", [some [docA, docB]]⟩

/-- Concrete pre-existing index: the entry under the number of `docA` has a
field this job never writes, plus a stale title. -/
def idxW : Index :=
  [("2024-0001", [("legacy_field", "keep me"), ("title", "Old title")])]

/-! ## Helper lemmas on the dictionary operations -/

theorem find?_set_self {α : Type} (k : String) (v : α) :
    ∀ (l : List (String × α)), l.any (fun p => p.1 == k) = true →
      (l.map (fun p => if p.1 == k then (k, v) else p)).find? (fun p => p.1 == k)
        = some (k, v)
  | [], h => by simp at h
  | p :: rest, h => by
    by_cases hp : (p.1 == k) = true
    · rw [List.map_cons, if_pos hp]
      exact List.find?_cons_of_pos _ (by simp)
    · have hr : rest.any (fun q => q.1 == k) = true := by
        simp only [List.any_cons, hp, Bool.false_or] at h
        exact h
      simp only [List.map_cons, hp, if_false, Bool.false_eq_true]
      rw [List.find?_cons_of_neg _ (by simp [hp])]
      exact find?_set_self k v rest hr

theorem find?_set_ne {α : Type} (k k' : String) (v : α) (hne : (k == k') = false) :
    ∀ (l : List (String × α)),
      (l.map (fun p => if p.1 == k then (k, v) else p)).find? (fun p => p.1 == k')
        = l.find? (fun p => p.1 == k')
  | [] => by simp
  | p :: rest => by
    by_cases hp : (p.1 == k) = true
    · have hpk : p.1 = k := by simpa using hp
      have h2 : (p.1 == k') = false := by rw [hpk]; exact hne
      simp only [List.map_cons, hp, if_true]
      rw [List.find?_cons_of_neg _ (by simp [hne]),
        List.find?_cons_of_neg _ (by simp [h2])]
      exact find?_set_ne k k' v hne rest
    · simp only [List.map_cons, hp, if_false, Bool.false_eq_true]
      by_cases h3 : (p.1 == k') = true
      · rw [List.find?_cons_of_pos _ (by simpa using h3),
          List.find?_cons_of_pos _ (by simpa using h3)]
      · rw [List.find?_cons_of_neg _ (by simp [h3]),
          List.find?_cons_of_neg _ (by simp [h3])]
        exact find?_set_ne k k' v hne rest

theorem lookupKey_setKey_self {α : Type} (l : List (String × α)) (k : String) (v : α) :
    lookupKey (setKey l k v) k = some v := by
  unfold setKey lookupKey
  by_cases h : l.any (fun p => p.1 == k) = true
  · rw [if_pos h, find?_set_self k v l h]
    rfl
  · rw [if_neg h, List.find?_append]
    have h' : l.any (fun p => p.1 == k) = false := Bool.eq_false_iff.mpr h
    have hnone : l.find? (fun p => p.1 == k) = none := by
      rw [List.find?_eq_none]
      intro x hx
      have hx2 := List.any_eq_false.mp h' x hx
      simp only [beq_iff_eq] at hx2 ⊢
      exact hx2
    simp [hnone]

theorem lookupKey_setKey_ne {α : Type} (l : List (String × α)) (k k' : String) (v : α)
    (hne : k ≠ k') :
    lookupKey (setKey l k v) k' = lookupKey l k' := by
  have hb : (k == k') = false := by simpa using hne
  unfold setKey lookupKey
  by_cases h : l.any (fun p => p.1 == k) = true
  · rw [if_pos h, find?_set_ne k k' v hb l]
  · rw [if_neg h, List.find?_append]
    simp [hb]

theorem length_le_setKey {α : Type} (l : List (String × α)) (k : String) (v : α) :
    l.length ≤ (setKey l k v).length := by
  unfold setKey
  by_cases h : l.any (fun p => p.1 == k) = true
  · simp [h]
  · simp [h]

theorem contains_append_of_contains {l : List String} (l2 : List String) {p : String}
    (h : l.contains p = true) : (l ++ l2).contains p = true := by
  have hm : p ∈ l := by simpa [List.contains, List.elem_iff] using h
  simpa [List.contains, List.elem_iff] using List.mem_append_left l2 hm

theorem contains_append_right (l : List String) {l2 : List String} {p : String}
    (h : l2.contains p = true) : (l ++ l2).contains p = true := by
  have hm : p ∈ l2 := by simpa [List.contains, List.elem_iff] using h
  simpa [List.contains, List.elem_iff] using List.mem_append_right l hm

/-! ## Growth of the store and of the index along the run -/

theorem stMono_refl (st : St) : StMono st st :=
  ⟨fun _ h => h, fun _ h => h, le_refl _⟩

theorem stMono_trans {a b c : St} (h1 : StMono a b) (h2 : StMono b c) : StMono a c :=
  ⟨fun p hp => h2.1 p (h1.1 p hp), fun k hk => h2.2.1 k (h1.2.1 k hk),
    le_trans h1.2.2 h2.2.2⟩

theorem lookupKey_updateAbstracts_isSome (idx : Index) (d : Doc) (an path k : String)
    (h : (lookupKey idx k).isSome = true) :
    (lookupKey (updateAbstracts idx d an path) k).isSome = true := by
  unfold updateAbstracts
  by_cases hk : d.document_number = k
  · subst hk
    rw [lookupKey_setKey_self]
    rfl
  · rw [lookupKey_setKey_ne _ _ _ _ hk]
    exact h

theorem length_le_updateAbstracts (idx : Index) (d : Doc) (an path : String) :
    idx.length ≤ (updateAbstracts idx d an path).length :=
  length_le_setKey _ _ _

theorem processDoc_mono (allFlag : Bool) (statRaises dl : String → Bool)
    (pf sn an : String) (st : St) (d : Doc) :
    StMono st (processDoc allFlag statRaises dl pf sn an st d).1 := by
  unfold processDoc
  by_cases h1 : noPdfUrl d = true
  · rw [if_pos h1]
    exact stMono_refl st
  · rw [if_neg h1]
    by_cases h2 : statRaises (docPath pf sn d) = true
    · rw [if_pos h2]
      by_cases h3 : dl (d.pdf_url.getD "") = true
      · rw [if_pos h3]
        exact ⟨fun p hp => contains_append_of_contains _ hp,
          fun k hk => lookupKey_updateAbstracts_isSome _ _ _ _ _ hk,
          length_le_updateAbstracts _ _ _ _⟩
      · rw [if_neg h3]
        exact ⟨fun _ h => h, fun _ h => h, le_refl _⟩
    · rw [if_neg h2]
      by_cases h4 : allFlag = true
      · rw [if_pos h4]
        exact ⟨fun _ h => h, fun _ h => h, le_refl _⟩
      · rw [if_neg h4]
        exact ⟨fun _ h => h, fun _ h => h, le_refl _⟩

theorem processDocs_mono (allFlag : Bool) (dl : String → Bool) (pf sn an : String) :
    ∀ (docs : List Doc) (st : St),
      StMono st (processDocs allFlag dl pf sn an st docs).1
  | [], st => stMono_refl st
  | d :: rest, st => by
    rw [processDocs]
    by_cases h2 : (processDoc allFlag (fun p => !(st.store.contains p)) dl pf sn an st d).2 = true
    · simp only [h2, if_true]
      exact processDoc_mono allFlag _ dl pf sn an st d
    · simp only [h2, if_false, Bool.false_eq_true]
      exact stMono_trans (processDoc_mono allFlag _ dl pf sn an st d)
        (processDocs_mono allFlag dl pf sn an rest _)

theorem processPages_mono (allFlag : Bool) (dl : String → Bool) (pf sn an : String) :
    ∀ (pages : List Page) (st : St),
      StMono st (processPages allFlag dl pf sn an st pages)
  | [], st => stMono_refl st
  | none :: _, st => stMono_refl st
  | some docs :: rest, st => by
    rw [processPages]
    by_cases h2 : (processDocs allFlag dl pf sn an st docs).2 = true
    · simp only [h2, if_true]
      exact processDocs_mono allFlag dl pf sn an docs st
    · simp only [h2, if_false, Bool.false_eq_true]
      exact stMono_trans (processDocs_mono allFlag dl pf sn an docs st)
        (processPages_mono allFlag dl pf sn an rest _)

theorem processAgency_mono (allFlag : Bool) (dl : String → Bool) (pf : String)
    (st : St) (ag : Agency) : StMono st (processAgency allFlag dl pf st ag) :=
  processPages_mono allFlag dl pf ag.short_name ag.name ag.pages st

theorem runAgencies_mono (allFlag : Bool) (dl : String → Bool) (pf : String) :
    ∀ (ags : List Agency) (st : St), StMono st (runAgencies allFlag dl pf st ags)
  | [], st => stMono_refl st
  | ag :: rest, st => by
    rw [runAgencies]
    exact stMono_trans (processAgency_mono allFlag dl pf st ag)
      (runAgencies_mono allFlag dl pf rest _)

/-! ## Branch behaviour of the per-document step -/

theorem processDoc_noPdf (allFlag : Bool) (statRaises dl : String → Bool)
    (pf sn an : String) (st : St) (d : Doc) (h : noPdfUrl d = true) :
    processDoc allFlag statRaises dl pf sn an st d = (st, false) := by
  unfold processDoc
  rw [if_pos h]

theorem processDoc_existing_stop (statRaises dl : String → Bool)
    (pf sn an : String) (st : St) (d : Doc) (h1 : noPdfUrl d = false)
    (h2 : statRaises (docPath pf sn d) = false) :
    processDoc false statRaises dl pf sn an st d
      = ({ st with skipped := st.skipped + 1 }, true) := by
  simp [processDoc, h1, h2]

theorem processDoc_existing_all (statRaises dl : String → Bool)
    (pf sn an : String) (st : St) (d : Doc) (h1 : noPdfUrl d = false)
    (h2 : statRaises (docPath pf sn d) = false) :
    processDoc true statRaises dl pf sn an st d
      = ({ st with skipped := st.skipped + 1 }, false) := by
  simp [processDoc, h1, h2]

theorem processDoc_download_ok (allFlag : Bool) (statRaises dl : String → Bool)
    (pf sn an : String) (st : St) (d : Doc) (h1 : noPdfUrl d = false)
    (h2 : statRaises (docPath pf sn d) = true)
    (h3 : dl (d.pdf_url.getD "") = true) :
    processDoc allFlag statRaises dl pf sn an st d
      = ({ st with
            attempts := st.attempts ++ [docPath pf sn d],
            store := st.store ++ [docPath pf sn d],
            uploads := st.uploads ++ [docPath pf sn d],
            index := updateAbstracts st.index d an (docPath pf sn d) }, false) := by
  simp [processDoc, h1, h2, h3]

theorem processDoc_download_fail (allFlag : Bool) (statRaises dl : String → Bool)
    (pf sn an : String) (st : St) (d : Doc) (h1 : noPdfUrl d = false)
    (h2 : statRaises (docPath pf sn d) = true)
    (h3 : dl (d.pdf_url.getD "") = false) :
    processDoc allFlag statRaises dl pf sn an st d
      = ({ st with attempts := st.attempts ++ [docPath pf sn d] }, false) := by
  simp [processDoc, h1, h2, h3]

theorem processDoc_attempts (allFlag : Bool) (statRaises dl : String → Bool)
    (pf sn an : String) (st : St) (d : Doc) (h1 : noPdfUrl d = false)
    (h2 : statRaises (docPath pf sn d) = true) :
    (processDoc allFlag statRaises dl pf sn an st d).1.attempts
      = st.attempts ++ [docPath pf sn d] := by
  by_cases h3 : dl (d.pdf_url.getD "") = true
  · rw [processDoc_download_ok allFlag statRaises dl pf sn an st d h1 h2 h3]
  · rw [processDoc_download_fail allFlag statRaises dl pf sn an st d h1 h2
      (Bool.eq_false_iff.mpr h3)]

/-! ## Structural lemmas for the loops -/

theorem processDocs_append (allFlag : Bool) (dl : String → Bool) (pf sn an : String) :
    ∀ (xs ys : List Doc) (st : St),
      processDocs allFlag dl pf sn an st (xs ++ ys)
        = (if (processDocs allFlag dl pf sn an st xs).2
           then processDocs allFlag dl pf sn an st xs
           else processDocs allFlag dl pf sn an (processDocs allFlag dl pf sn an st xs).1 ys)
  | [], ys, st => by simp [processDocs]
  | x :: rest, ys, st => by
    rw [List.cons_append, processDocs, processDocs]
    by_cases h2 : (processDoc allFlag (fun p => !(st.store.contains p)) dl pf sn an st x).2 = true
    · simp only [h2, if_true]
    · simp only [h2, if_false, Bool.false_eq_true]
      exact processDocs_append allFlag dl pf sn an rest ys _

theorem processDocs_all_noPdf (allFlag : Bool) (dl : String → Bool) (pf sn an : String) :
    ∀ (docs : List Doc) (st : St), (∀ x ∈ docs, noPdfUrl x = true) →
      processDocs allFlag dl pf sn an st docs = (st, false)
  | [], st, _ => rfl
  | x :: rest, st, h => by
    rw [processDocs,
      processDoc_noPdf allFlag _ dl pf sn an st x (h x (List.mem_cons_self x rest))]
    simp only [if_false, Bool.false_eq_true]
    exact processDocs_all_noPdf allFlag dl pf sn an rest st
      (fun y hy => h y (List.mem_cons_of_mem x hy))

theorem processPages_fail_stop (allFlag : Bool) (dl : String → Bool) (pf sn an : String) :
    ∀ (ps : List Page) (rest : List Page) (st : St),
      processPages allFlag dl pf sn an st (ps ++ none :: rest)
        = processPages allFlag dl pf sn an st ps
  | [], rest, st => rfl
  | none :: ps', rest, st => rfl
  | some docs :: ps', rest, st => by
    rw [List.cons_append, processPages, processPages]
    by_cases h2 : (processDocs allFlag dl pf sn an st docs).2 = true
    · simp only [h2, if_true]
    · simp only [h2, if_false, Bool.false_eq_true]
      exact processPages_fail_stop allFlag dl pf sn an ps' rest _

theorem runAgencies_append (allFlag : Bool) (dl : String → Bool) (pf : String) :
    ∀ (xs ys : List Agency) (st : St),
      runAgencies allFlag dl pf st (xs ++ ys)
        = runAgencies allFlag dl pf (runAgencies allFlag dl pf st xs) ys
  | [], ys, st => rfl
  | ag :: rest, ys, st => by
    rw [List.cons_append, runAgencies, runAgencies]
    exact runAgencies_append allFlag dl pf rest ys _

/-! ## Idempotence machinery

A first non-rescan run leaves, for every agency, the artifact of the
first reachable document with a usable `pdf_url` in the bucket; a
later non-rescan run over the same pages then stops at that document
for every agency without issuing a single download or upload. -/

theorem sameCore_refl (a : St) : sameCore a a :=
  ⟨rfl, rfl, rfl, rfl⟩

theorem sameCore_trans {a b c : St} (h1 : sameCore a b) (h2 : sameCore b c) :
    sameCore a c :=
  ⟨h1.1.trans h2.1, h1.2.1.trans h2.2.1, h1.2.2.1.trans h2.2.2.1, h1.2.2.2.trans h2.2.2.2⟩

theorem processDocs_first_cov (dl : String → Bool) (pf sn an : String)
    (hdl : ∀ u, dl u = true) :
    ∀ (docs : List Doc) (st : St) (d : Doc),
      docs.find? (fun x => !(noPdfUrl x)) = some d →
      (processDocs false dl pf sn an st docs).1.store.contains (docPath pf sn d) = true
  | [], st, d, h => by simp at h
  | x :: rest, st, d, h => by
    by_cases hx : noPdfUrl x = true
    · rw [List.find?_cons_of_neg _ (by simp [hx])] at h
      rw [processDocs, processDoc_noPdf false _ dl pf sn an st x hx]
      simp only [if_false, Bool.false_eq_true]
      exact processDocs_first_cov dl pf sn an hdl rest st d h
    · have hx' : noPdfUrl x = false := Bool.eq_false_iff.mpr hx
      rw [List.find?_cons_of_pos _ (by simp [hx'])] at h
      have hd : x = d := by simpa using h
      subst hd
      rw [processDocs]
      by_cases hs : st.store.contains (docPath pf sn x) = true
      · rw [processDoc_existing_stop _ dl pf sn an st x hx'
          (by simp only [hs, Bool.not_true])]
        simpa using hs
      · have hs0 : st.store.contains (docPath pf sn x) = false := Bool.eq_false_iff.mpr hs
        have hs' : (!(st.store.contains (docPath pf sn x))) = true := by
          rw [hs0]
          rfl
        rw [processDoc_download_ok false _ dl pf sn an st x hx' hs'
          (hdl (x.pdf_url.getD ""))]
        simp only [if_false, Bool.false_eq_true]
        refine (processDocs_mono false dl pf sn an rest _).1 _ ?_
        exact contains_append_right st.store (by simp)

theorem processPages_first_cov (dl : String → Bool) (pf sn an : String)
    (hdl : ∀ u, dl u = true) :
    ∀ (pages : List Page) (st : St) (d : Doc),
      firstPdfDoc pages = some d →
      (processPages false dl pf sn an st pages).store.contains (docPath pf sn d) = true
  | [], st, d, h => by simp [firstPdfDoc] at h
  | none :: _, st, d, h => by simp [firstPdfDoc] at h
  | some docs :: rest, st, d, h => by
    rw [firstPdfDoc] at h
    rw [processPages]
    cases hfind : docs.find? (fun x => !(noPdfUrl x)) with
    | some d' =>
      rw [hfind] at h
      have hd : d' = d := by simpa using h
      subst hd
      have hcov := processDocs_first_cov dl pf sn an hdl docs st d' hfind
      by_cases h2 : (processDocs false dl pf sn an st docs).2 = true
      · simpa [h2] using hcov
      · simp only [h2, if_false, Bool.false_eq_true]
        exact (processPages_mono false dl pf sn an rest _).1 _ hcov
    | none =>
      rw [hfind] at h
      have hall : ∀ x ∈ docs, noPdfUrl x = true := by
        intro x hx
        have := List.find?_eq_none.mp hfind x hx
        simpa using this
      rw [processDocs_all_noPdf false dl pf sn an docs st hall]
      simp only [if_false, Bool.false_eq_true]
      exact processPages_first_cov dl pf sn an hdl rest st d h

/-- After a full non-rescan run with all downloads succeeding, every
first reachable pdf-bearing document of every listed agency has its artifact
in the bucket. -/
theorem runAgencies_cov (dl : String → Bool) (pf : String) (hdl : ∀ u, dl u = true) :
    ∀ (ags : List Agency) (st : St) (ag : Agency) (d : Doc), ag ∈ ags →
      firstPdfDoc ag.pages = some d →
      (runAgencies false dl pf st ags).store.contains (docPath pf ag.short_name d) = true
  | [], st, ag, d, hmem, _ => by simp at hmem
  | a :: rest, st, ag, d, hmem, hfirst => by
    rw [runAgencies]
    rcases List.mem_cons.mp hmem with heq | htail
    · subst heq
      exact (runAgencies_mono false dl pf rest _).1 _
        (processPages_first_cov dl pf ag.short_name ag.name hdl ag.pages st d hfirst)
    · exact runAgencies_cov dl pf hdl rest _ ag d htail hfirst

theorem processDocs_covered_stop (dl : String → Bool) (pf sn an : String) :
    ∀ (docs : List Doc) (st : St) (d : Doc),
      docs.find? (fun x => !(noPdfUrl x)) = some d →
      st.store.contains (docPath pf sn d) = true →
      processDocs false dl pf sn an st docs = ({ st with skipped := st.skipped + 1 }, true)
  | [], st, d, h, _ => by simp at h
  | x :: rest, st, d, h, hcov => by
    by_cases hx : noPdfUrl x = true
    · rw [List.find?_cons_of_neg _ (by simp [hx])] at h
      rw [processDocs, processDoc_noPdf false _ dl pf sn an st x hx]
      simp only [if_false, Bool.false_eq_true]
      exact processDocs_covered_stop dl pf sn an rest st d h hcov
    · have hx' : noPdfUrl x = false := Bool.eq_false_iff.mpr hx
      rw [List.find?_cons_of_pos _ (by simp [hx'])] at h
      have hd : x = d := by simpa using h
      subst hd
      rw [processDocs, processDoc_existing_stop _ dl pf sn an st x hx'
        (by simp only [hcov, Bool.not_true])]
      rfl

theorem processPages_covered_noop (dl : String → Bool) (pf sn an : String) :
    ∀ (pages : List Page) (st : St),
      (∀ d, firstPdfDoc pages = some d → st.store.contains (docPath pf sn d) = true) →
      sameCore (processPages false dl pf sn an st pages) st
  | [], st, _ => sameCore_refl st
  | none :: _, st, _ => sameCore_refl st
  | some docs :: rest, st, hcov => by
    rw [processPages]
    cases hfind : docs.find? (fun x => !(noPdfUrl x)) with
    | some d =>
      have hc : st.store.contains (docPath pf sn d) = true := by
        apply hcov
        rw [firstPdfDoc, hfind]
      rw [processDocs_covered_stop dl pf sn an docs st d hfind hc]
      exact ⟨rfl, rfl, rfl, rfl⟩
    | none =>
      have hall : ∀ x ∈ docs, noPdfUrl x = true := by
        intro x hx
        have := List.find?_eq_none.mp hfind x hx
        simpa using this
      rw [processDocs_all_noPdf false dl pf sn an docs st hall]
      simp only [if_false, Bool.false_eq_true]
      apply processPages_covered_noop dl pf sn an rest st
      intro d hd
      apply hcov
      rw [firstPdfDoc, hfind]
      exact hd

theorem runAgencies_covered_noop (dl : String → Bool) (pf : String) :
    ∀ (ags : List Agency) (st : St),
      (∀ ag ∈ ags, ∀ d, firstPdfDoc ag.pages = some d →
        st.store.contains (docPath pf ag.short_name d) = true) →
      sameCore (runAgencies false dl pf st ags) st
  | [], st, _ => sameCore_refl st
  | a :: rest, st, hcov => by
    rw [runAgencies]
    have h1 : sameCore (processAgency false dl pf st a) st :=
      processPages_covered_noop dl pf a.short_name a.name a.pages st
        (fun d hd => hcov a (List.mem_cons_self a rest) d hd)
    have h2 : sameCore (runAgencies false dl pf (processAgency false dl pf st a) rest)
        (processAgency false dl pf st a) := by
      apply runAgencies_covered_noop dl pf rest
      intro ag hag d hd
      rw [h1.1]
      exact hcov ag (List.mem_cons_of_mem a hag) d hd
    exact sameCore_trans h2 h1

/-! ## Remaining helper lemmas -/

theorem lookupKey_setKey_isSome {α : Type} (l : List (String × α)) (k k' : String) (v : α)
    (h : (lookupKey l k').isSome = true) :
    (lookupKey (setKey l k v) k').isSome = true := by
  by_cases hk : k = k'
  · subst hk
    rw [lookupKey_setKey_self]
    rfl
  · rw [lookupKey_setKey_ne _ _ _ _ hk]
    exact h

theorem lookupKey_updatePairs_isSome :
    ∀ (ps : List (String × String)) (e : Entry) (k : String),
      (lookupKey e k).isSome = true →
      (lookupKey (updatePairs e ps) k).isSome = true
  | [], _, _, h => h
  | p :: rest, e, k, h =>
    lookupKey_updatePairs_isSome rest (setKey e p.1 p.2) k
      (lookupKey_setKey_isSome e p.1 k p.2 h)

theorem countSlash_sanitize (s : String) : countSlash (sanitize s) = 0 := by
  show (s.data.map slashToUnderscore).count '/' = 0
  induction s.data with
  | nil => rfl
  | cons c cs ih =>
    rw [List.map_cons, List.count_cons, ih]
    have hne : (slashToUnderscore c == '/') = false := by
      unfold slashToUnderscore
      by_cases hc : c = '/'
      · rw [if_pos hc]
        decide
      · rw [if_neg hc]
        simpa using hc
    rw [hne]
    rfl

theorem countSlash_append (a b : String) : countSlash (a ++ b) = countSlash a + countSlash b := by
  unfold countSlash
  rw [String.data_append]
  exact List.count_append _ _ _

/-! ## The claims -/

/-- C5: storage-path determinism. The storage path depends only on the
document number, the title, the agency short name and the configured
parent folder: two records agreeing on number and title map to the
same path whatever their other fields; and a title of more than 30
characters is truncated to exactly its first 30 characters followed by
the fixed suffix "...", while a shorter title is kept whole. -/
theorem c5_path_determinism (pf sn : String) (d1 d2 : Doc) (t : String)
    (hn : d1.document_number = d2.document_number) (ht : d1.title = d2.title) :
    docPath pf sn d1 = docPath pf sn d2
    ∧ (30 < t.length → truncatedTitle t = String.mk (t.data.take 30) ++ "...")
    ∧ (t.length ≤ 30 → truncatedTitle t = t) := by
  refine ⟨?_, ?_, ?_⟩
  · unfold docPath effTitle
    rw [hn, ht]
  · intro h
    unfold truncatedTitle
    rw [if_pos h]
  · intro h
    unfold truncatedTitle
    rw [if_neg (by omega)]

/-- Closed instance of the path-determinism claim: two records sharing
number and title but differing in abstract and pdf url give the same
path; a 36-character title is truncated; an 11-character one is not. -/
theorem c5_path_determinism_witness :
    docPath "fr" "FTC" docA = docPath "fr" "FTC" docA2
    ∧ truncatedTitle "abcdefghijklmnopqrstuvwxyz0123456789"
        = String.mk ("abcdefghijklmnopqrstuvwxyz0123456789".data.take 30) ++ "..."
    ∧ truncatedTitle "Short Title" = "Short Title" :=
  ⟨(c5_path_determinism "fr" "FTC" docA docA2 "x" (by decide) (by decide)).1,
    (c5_path_determinism "fr" "FTC" docA docA2 "abcdefghijklmnopqrstuvwxyz0123456789"
      (by decide) (by decide)).2.1 (by decide),
    (c5_path_determinism "fr" "FTC" docA docA2 "Short Title"
      (by decide) (by decide)).2.2 (by decide)⟩

/-- C6: a document record whose `pdf_url` is missing or empty is
skipped entirely: the per-document step leaves the state untouched (no
download attempt, no upload, no index change, not even the skipped
counter) and does not stop pagination. -/
theorem c6_no_pdf_url_skipped (allFlag : Bool) (statRaises dl : String → Bool)
    (pf sn an : String) (st : St) (d : Doc) (h : noPdfUrl d = true) :
    processDoc allFlag statRaises dl pf sn an st d = (st, false) :=
  processDoc_noPdf allFlag statRaises dl pf sn an st d h

/-- Closed instance of the missing-pdf-url claim, once for an absent
`pdf_url` key and once for an empty-string url. -/
theorem c6_no_pdf_url_skipped_witness :
    processDoc false (fun _ => true) (fun _ => true) "fr" "FTC"
      "Federal Trade Commission" (initSt [] []) docNoUrl = (initSt [] [], false)
    ∧ processDoc true (fun _ => false) (fun _ => true) "fr" "FTC"
      "Federal Trade Commission" (initSt [] []) docEmptyUrl = (initSt [] [], false) :=
  ⟨c6_no_pdf_url_skipped false (fun _ => true) (fun _ => true) "fr" "FTC"
      "Federal Trade Commission" (initSt [] []) docNoUrl rfl,
    c6_no_pdf_url_skipped true (fun _ => false) (fun _ => true) "fr" "FTC"
      "Federal Trade Commission" (initSt [] []) docEmptyUrl rfl⟩

/-- C7: a non-200 page response aborts pagination for the current
agency only: the whole job behaves exactly as if the page
list of that agency ended just before the failed page — nothing from the failed page
or later pages of that agency is processed, agencies after it are
still processed — and the final index-persistence step is still
reached. -/
theorem c7_page_failure_aborts_agency (allFlag : Bool) (dl : String → Bool) (pf : String)
    (idx0 : Index) (store0 : List String) (pre post : List Agency)
    (sn an : String) (ps rest : List Page) :
    runJob allFlag dl pf idx0 store0 (pre ++ ⟨sn, an, ps ++ none :: rest⟩ :: post)
      = runJob allFlag dl pf idx0 store0 (pre ++ ⟨sn, an, ps⟩ :: post)
    ∧ (runJob allFlag dl pf idx0 store0
        (pre ++ ⟨sn, an, ps ++ none :: rest⟩ :: post)).savedIndex.isSome = true := by
  have hagree : runAgencies allFlag dl pf (initSt store0 idx0)
      (pre ++ ⟨sn, an, ps ++ none :: rest⟩ :: post)
      = runAgencies allFlag dl pf (initSt store0 idx0) (pre ++ ⟨sn, an, ps⟩ :: post) := by
    rw [runAgencies_append, runAgencies_append, runAgencies, runAgencies]
    congr 1
    unfold processAgency
    exact processPages_fail_stop allFlag dl pf sn an ps rest _
  constructor
  · simp only [runJob]
    rw [hagree]
  · rfl

/-- C9: for a document with a usable pdf url, any exception from the
existence check — regardless of whether the object actually exists —
sends the step into the download branch: a download request for the
path of the document is issued. -/
theorem c9_stat_exception_downloads (allFlag : Bool) (statRaises dl : String → Bool)
    (pf sn an : String) (st : St) (d : Doc)
    (hpdf : noPdfUrl d = false)
    (hraise : statRaises (docPath pf sn d) = true) :
    (processDoc allFlag statRaises dl pf sn an st d).1.attempts
      = st.attempts ++ [docPath pf sn d] :=
  processDoc_attempts allFlag statRaises dl pf sn an st d hpdf hraise

/-- Closed instance of the stat-exception claim at a state whose
bucket DOES contain the object: the exception still routes to a
download attempt, showing the behaviour is not limited to true
not-found. -/
theorem c9_stat_exception_downloads_witness :
    (processDoc false (fun _ => true) (fun _ => true) "fr" "FTC"
      "Federal Trade Commission" (initSt [docPath "fr" "FTC" docA] []) docA).1.attempts
      = (initSt [docPath "fr" "FTC" docA] []).attempts ++ [docPath "fr" "FTC" docA] :=
  c9_stat_exception_downloads false (fun _ => true) (fun _ => true) "fr" "FTC"
    "Federal Trade Commission" (initSt [docPath "fr" "FTC" docA] []) docA rfl rfl

/-- C10: the filename component is fully sanitized — it is the
character-wise slash-to-underscore image of
`document_number ++ " - " ++ truncated title ++ ".pdf"`, hence contains
no `/` — while the short-name segment is spliced in verbatim; when the
parent folder and the short name are themselves slash-free the
resulting object path has exactly two `/` separators, i.e. the
three-segment shape parent/short_name/filename. -/
theorem c10_filename_sanitized (pf sn dn t : String)
    (h1 : countSlash pf = 0) (h2 : countSlash sn = 0) :
    (pdfFilename dn t).data
        = ((dn ++ " - " ++ truncatedTitle t ++ ".pdf").data).map slashToUnderscore
    ∧ pdfObjectPath pf sn dn t = pf ++ "/" ++ sn ++ "/" ++ pdfFilename dn t
    ∧ countSlash (pdfFilename dn t) = 0
    ∧ countSlash (pdfObjectPath pf sn dn t) = 2 := by
  refine ⟨rfl, rfl, countSlash_sanitize _, ?_⟩
  unfold pdfObjectPath
  rw [countSlash_append, countSlash_append, countSlash_append, countSlash_append,
    h1, h2]
  unfold pdfFilename
  rw [countSlash_sanitize]
  rfl

/-- C1: idempotence. With identical catalog pages and every download
succeeding (the first run completed fully), a second non-rescan run
started from the bucket and index the first run left behind issues
zero PDF download requests and zero artifact uploads. -/
theorem c1_idempotent_second_run (dl : String → Bool) (pf : String)
    (idx0 : Index) (store0 : List String) (ags : List Agency)
    (hdl : ∀ u, dl u = true) :
    (runJob false dl pf
        (runJob false dl pf idx0 store0 ags).finalState.index
        (runJob false dl pf idx0 store0 ags).finalState.store
        ags).finalState.attempts = []
    ∧ (runJob false dl pf
        (runJob false dl pf idx0 store0 ags).finalState.index
        (runJob false dl pf idx0 store0 ags).finalState.store
        ags).finalState.uploads = [] := by
  have hcov : ∀ ag ∈ ags, ∀ d, firstPdfDoc ag.pages = some d →
      (initSt (runJob false dl pf idx0 store0 ags).finalState.store
        (runJob false dl pf idx0 store0 ags).finalState.index).store.contains
        (docPath pf ag.short_name d) = true := by
    intro ag hag d hd
    exact runAgencies_cov dl pf hdl ags (initSt store0 idx0) ag d hag hd
  have hnoop := runAgencies_covered_noop dl pf ags
    (initSt (runJob false dl pf idx0 store0 ags).finalState.store
      (runJob false dl pf idx0 store0 ags).finalState.index) hcov
  exact ⟨hnoop.2.2.1, hnoop.2.2.2⟩

/-- Closed instance of the idempotence claim: one agency, one page
with two fresh documents; the repeated run does nothing. -/
theorem c1_idempotent_second_run_witness :
    (runJob false (fun _ => true) "fr"
        (runJob false (fun _ => true) "fr" [] [] [agFTC]).finalState.index
        (runJob false (fun _ => true) "fr" [] [] [agFTC]).finalState.store
        [agFTC]).finalState.attempts = []
    ∧ (runJob false (fun _ => true) "fr"
        (runJob false (fun _ => true) "fr" [] [] [agFTC]).finalState.index
        (runJob false (fun _ => true) "fr" [] [] [agFTC]).finalState.store
        [agFTC]).finalState.uploads = [] :=
  c1_idempotent_second_run (fun _ => true) "fr" [] [] [agFTC] (fun _ => rfl)

/-- C2 counterexample: non-rescan run over one agency whose first page
starts with a document already in the bucket. The run does record the
existing artifact (skipped counter is 1) and stops pagination, but —
contrary to the claim — the Metadata Index entry for that document
number is never written: the `break` on line 198 of `frscraper.py`
fires before the index-update block of lines 235-246. -/
theorem c2_counterexample :
    (runJob false (fun _ => true) "fr" [] [docPath "fr" "FTC" docA]
      [agFTC]).finalState.skipped = 1
    ∧ lookupKey (runJob false (fun _ => true) "fr" [] [docPath "fr" "FTC" docA]
      [agFTC]).finalState.index "2024-0001" = none :=
  ⟨rfl, rfl⟩

/-- C2 as amended: when pagination reaches a document whose artifact
already exists and full-rescan mode is off, the job records the find
(skipped counter), leaves store, index, download attempts and uploads
untouched for that document, and abandons the rest of the page, all
later pages of the agency — while agencies listed after it are still
processed from that state. (The index re-merge of the original claim does
not happen.) -/
theorem c2_existing_stops_agency (dl : String → Bool) (pf sn an : String)
    (st st1 : St) (docs1 docs2 : List Doc) (d : Doc) (restPages : List Page)
    (post : List Agency)
    (hpdf : noPdfUrl d = false)
    (hex : st1.store.contains (docPath pf sn d) = true)
    (h1 : processDocs false dl pf sn an st docs1 = (st1, false)) :
    processDoc false (fun p => !(st1.store.contains p)) dl pf sn an st1 d
      = ({ st1 with skipped := st1.skipped + 1 }, true)
    ∧ processPages false dl pf sn an st (some (docs1 ++ d :: docs2) :: restPages)
      = { st1 with skipped := st1.skipped + 1 }
    ∧ runAgencies false dl pf st
        (⟨sn, an, some (docs1 ++ d :: docs2) :: restPages⟩ :: post)
      = runAgencies false dl pf ({ st1 with skipped := st1.skipped + 1 }) post := by
  have hstop : processDoc false (fun p => !(st1.store.contains p)) dl pf sn an st1 d
      = ({ st1 with skipped := st1.skipped + 1 }, true) :=
    processDoc_existing_stop _ dl pf sn an st1 d hpdf (by simp only [hex, Bool.not_true])
  have hdocs : processDocs false dl pf sn an st (docs1 ++ d :: docs2)
      = ({ st1 with skipped := st1.skipped + 1 }, true) := by
    rw [processDocs_append, h1]
    show processDocs false dl pf sn an st1 (d :: docs2) = _
    rw [processDocs, hstop]
    rfl
  have hpage : processPages false dl pf sn an st (some (docs1 ++ d :: docs2) :: restPages)
      = { st1 with skipped := st1.skipped + 1 } := by
    rw [processPages, hdocs]
    rfl
  refine ⟨hstop, hpage, ?_⟩
  rw [runAgencies]
  show runAgencies false dl pf
    (processPages false dl pf sn an st (some (docs1 ++ d :: docs2) :: restPages)) post = _
  rw [hpage]

/-- Closed instance of the amended early-stop claim: the first page
of the agency holds the already-stored document followed by a fresh one;
the page loop ends with only the skipped counter bumped. -/
theorem c2_existing_stops_agency_witness :
    processPages false (fun _ => true) "fr" "FTC" "Federal Trade Commission"
        (initSt [docPath "fr" "FTC" docA] []) (some ([] ++ docA :: [docB]) :: [some [docB]])
      = { initSt [docPath "fr" "FTC" docA] [] with
          skipped := (initSt [docPath "fr" "FTC" docA] []).skipped + 1 } :=
  (c2_existing_stops_agency (fun _ => true) "fr" "FTC" "Federal Trade Commission"
    (initSt [docPath "fr" "FTC" docA] []) (initSt [docPath "fr" "FTC" docA] [])
    [] [docB] docA [some [docB]] [] rfl (by decide) rfl).2.1

/-- C3 counterexample: full-rescan run (`--all`) over one agency whose
page holds an already-stored document and a fresh one. The existing
document is skipped (counter 1) and pagination continues (the fresh
document gets an index entry), but — contrary to the claim — the index
entry of the existing document is never updated: the `continue` on
line 201 fires before the index-update block of lines 235-246. -/
theorem c3_counterexample :
    (runJob true (fun _ => true) "fr" [] [docPath "fr" "FTC" docA]
      [agFTC]).finalState.skipped = 1
    ∧ lookupKey (runJob true (fun _ => true) "fr" [] [docPath "fr" "FTC" docA]
      [agFTC]).finalState.index "2024-0001" = none
    ∧ (lookupKey (runJob true (fun _ => true) "fr" [] [docPath "fr" "FTC" docA]
      [agFTC]).finalState.index "2024-0002").isSome = true :=
  ⟨rfl, rfl, rfl⟩

/-- C3 as amended: in full-rescan mode an already-stored document is
skipped without a download, an upload or an index update (only the
skipped counter moves), and the loop continues with the remaining
documents of the page. (The index update of the original claim does not
happen.) -/
theorem c3_all_skips_download_only (dl : String → Bool) (pf sn an : String)
    (st : St) (d : Doc) (rest : List Doc)
    (hpdf : noPdfUrl d = false)
    (hex : st.store.contains (docPath pf sn d) = true) :
    processDoc true (fun p => !(st.store.contains p)) dl pf sn an st d
      = ({ st with skipped := st.skipped + 1 }, false)
    ∧ processDocs true dl pf sn an st (d :: rest)
      = processDocs true dl pf sn an { st with skipped := st.skipped + 1 } rest := by
  have h1 : processDoc true (fun p => !(st.store.contains p)) dl pf sn an st d
      = ({ st with skipped := st.skipped + 1 }, false) :=
    processDoc_existing_all _ dl pf sn an st d hpdf (by simp only [hex, Bool.not_true])
  refine ⟨h1, ?_⟩
  rw [processDocs, h1]
  rfl

/-- Closed instance of the amended full-rescan claim. -/
theorem c3_all_skips_download_only_witness :
    processDoc true (fun p => !((initSt [docPath "fr" "FTC" docA] []).store.contains p))
      (fun _ => true) "fr" "FTC" "Federal Trade Commission"
      (initSt [docPath "fr" "FTC" docA] []) docA
      = ({ initSt [docPath "fr" "FTC" docA] [] with
            skipped := (initSt [docPath "fr" "FTC" docA] []).skipped + 1 }, false)
    ∧ processDocs true (fun _ => true) "fr" "FTC" "Federal Trade Commission"
      (initSt [docPath "fr" "FTC" docA] []) (docA :: [docB])
      = processDocs true (fun _ => true) "fr" "FTC" "Federal Trade Commission"
        { initSt [docPath "fr" "FTC" docA] [] with
            skipped := (initSt [docPath "fr" "FTC" docA] []).skipped + 1 } [docB] :=
  c3_all_skips_download_only (fun _ => true) "fr" "FTC" "Federal Trade Commission"
    (initSt [docPath "fr" "FTC" docA] []) docA [docB] rfl (by decide)

/-- C4: the index update is a per-key shallow merge. Every field of
the freshly built record overwrites the value of the stored entry at that
field; any other field of the stored entry is preserved verbatim; a
field populated before the merge is still populated after it; and the
updated index maps the document number to exactly this merged entry. -/
theorem c4_merge_shallow (idx : Index) (d : Doc) (an path k : String) :
    (lookupKey (updatePairs ((lookupKey idx d.document_number).getD [])
        (freshPairs d an path)) "abstract" = some (d.abstract.getD "No abstract available.")
      ∧ lookupKey (updatePairs ((lookupKey idx d.document_number).getD [])
        (freshPairs d an path)) "title" = some (effTitle d)
      ∧ lookupKey (updatePairs ((lookupKey idx d.document_number).getD [])
        (freshPairs d an path)) "publication_date" = some (d.publication_date.getD "Unknown")
      ∧ lookupKey (updatePairs ((lookupKey idx d.document_number).getD [])
        (freshPairs d an path)) "agency_name" = some an
      ∧ lookupKey (updatePairs ((lookupKey idx d.document_number).getD [])
        (freshPairs d an path)) "pdf_path" = some path)
    ∧ (k ∉ (freshPairs d an path).map Prod.fst →
      lookupKey (updatePairs ((lookupKey idx d.document_number).getD [])
        (freshPairs d an path)) k
        = lookupKey ((lookupKey idx d.document_number).getD []) k)
    ∧ ((lookupKey ((lookupKey idx d.document_number).getD []) k).isSome = true →
      (lookupKey (updatePairs ((lookupKey idx d.document_number).getD [])
        (freshPairs d an path)) k).isSome = true)
    ∧ lookupKey (updateAbstracts idx d an path) d.document_number
        = some (updatePairs ((lookupKey idx d.document_number).getD [])
            (freshPairs d an path)) := by
  have hupd : ∀ e : Entry, updatePairs e (freshPairs d an path)
      = setKey (setKey (setKey (setKey (setKey e
          "abstract" (d.abstract.getD "No abstract available."))
          "title" (effTitle d))
          "publication_date" (d.publication_date.getD "Unknown"))
          "agency_name" an)
          "pdf_path" path := fun e => rfl
  refine ⟨⟨?_, ?_, ?_, ?_, ?_⟩, ?_, ?_, ?_⟩
  · rw [hupd, lookupKey_setKey_ne _ _ _ _ (by decide), lookupKey_setKey_ne _ _ _ _ (by decide),
      lookupKey_setKey_ne _ _ _ _ (by decide), lookupKey_setKey_ne _ _ _ _ (by decide),
      lookupKey_setKey_self]
  · rw [hupd, lookupKey_setKey_ne _ _ _ _ (by decide), lookupKey_setKey_ne _ _ _ _ (by decide),
      lookupKey_setKey_ne _ _ _ _ (by decide), lookupKey_setKey_self]
  · rw [hupd, lookupKey_setKey_ne _ _ _ _ (by decide), lookupKey_setKey_ne _ _ _ _ (by decide),
      lookupKey_setKey_self]
  · rw [hupd, lookupKey_setKey_ne _ _ _ _ (by decide), lookupKey_setKey_self]
  · rw [hupd, lookupKey_setKey_self]
  · intro hk
    simp only [freshPairs, List.map_cons, List.map_nil, List.mem_cons, List.not_mem_nil,
      or_false, not_or] at hk
    obtain ⟨h1, h2, h3, h4, h5⟩ := hk
    rw [hupd, lookupKey_setKey_ne _ _ _ _ (Ne.symm h5), lookupKey_setKey_ne _ _ _ _ (Ne.symm h4),
      lookupKey_setKey_ne _ _ _ _ (Ne.symm h3), lookupKey_setKey_ne _ _ _ _ (Ne.symm h2),
      lookupKey_setKey_ne _ _ _ _ (Ne.symm h1)]
  · exact fun h => lookupKey_updatePairs_isSome (freshPairs d an path) _ k h
  · unfold updateAbstracts
    exact lookupKey_setKey_self idx d.document_number _

/-- Closed instance of the merge claim on a pre-existing entry that
carries a field this job never writes: the field survives the merge
and the fresh title overwrites the stale one. -/
theorem c4_merge_shallow_witness :
    lookupKey (updatePairs ((lookupKey idxW docA.document_number).getD [])
      (freshPairs docA "Federal Trade Commission" "fr/FTC/x.pdf")) "legacy_field"
      = some "keep me"
    ∧ lookupKey (updatePairs ((lookupKey idxW docA.document_number).getD [])
      (freshPairs docA "Federal Trade Commission" "fr/FTC/x.pdf")) "title"
      = some (effTitle docA) := by
  have h := c4_merge_shallow idxW docA "Federal Trade Commission" "fr/FTC/x.pdf" "legacy_field"
  constructor
  · rw [h.2.1 (by decide)]
    decide
  · exact h.1.2.1

/-- C8: the Metadata Index never loses entries. Every key of the index
loaded at job start is still bound in the final in-memory index, the
index length never shrinks over a run, and the index persisted at job
end is exactly that final in-memory index. -/
theorem c8_index_only_grows (allFlag : Bool) (dl : String → Bool) (pf : String)
    (idx0 : Index) (store0 : List String) (ags : List Agency) (k : String)
    (h : (lookupKey idx0 k).isSome = true) :
    (lookupKey (runJob allFlag dl pf idx0 store0 ags).finalState.index k).isSome = true
    ∧ idx0.length ≤ (runJob allFlag dl pf idx0 store0 ags).finalState.index.length
    ∧ (runJob allFlag dl pf idx0 store0 ags).savedIndex
        = some (runJob allFlag dl pf idx0 store0 ags).finalState.index := by
  have hm := runAgencies_mono allFlag dl pf ags (initSt store0 idx0)
  exact ⟨hm.2.1 k h, hm.2.2, rfl⟩

/-- Closed instance of the no-deletion claim: a run that refreshes the
pre-existing entry keeps its key in the saved index. -/
theorem c8_index_only_grows_witness :
    (lookupKey (runJob false (fun _ => true) "fr" idxW [] [agFTC]).finalState.index
      "2024-0001").isSome = true
    ∧ idxW.length ≤ (runJob false (fun _ => true) "fr" idxW [] [agFTC]).finalState.index.length
    ∧ (runJob false (fun _ => true) "fr" idxW [] [agFTC]).savedIndex
        = some (runJob false (fun _ => true) "fr" idxW [] [agFTC]).finalState.index :=
  c8_index_only_grows false (fun _ => true) "fr" idxW [] [agFTC] "2024-0001" (by decide)

/-- Closed instance of the sanitization claim at a document number and
a title both containing slashes. -/
theorem c10_filename_sanitized_witness :
    (pdfFilename "FR/2024/17" "Rates for 7/1 plans").data
        = (("FR/2024/17" ++ " - " ++ truncatedTitle "Rates for 7/1 plans" ++ ".pdf").data).map
            slashToUnderscore
    ∧ pdfObjectPath "fr" "FTC" "FR/2024/17" "Rates for 7/1 plans"
        = "fr" ++ "/" ++ "FTC" ++ "/" ++ pdfFilename "FR/2024/17" "Rates for 7/1 plans"
    ∧ countSlash (pdfFilename "FR/2024/17" "Rates for 7/1 plans") = 0
    ∧ countSlash (pdfObjectPath "fr" "FTC" "FR/2024/17" "Rates for 7/1 plans") = 2 :=
  c10_filename_sanitized "fr" "FTC" "FR/2024/17" "Rates for 7/1 plans" (by decide) (by decide)
